import Mathlib

/-!
Shallow embedding of the notes service (app/notes.py, app/helpers.py,
app/user.py, app/serializers.py, app/constants.py).

MongoDB documents become Lean structures; the two collections become lists
of documents inside a `DB` state.  `find_one` becomes `List.find?`,
`update_one` becomes `updateFirst` (updating the first matching element),
`insert_one` appends.  Raised exceptions become `Except` errors; a raised
exception aborts the surrounding transaction, so an error result leaves the
database unchanged (`runShare`, `runDelete`).  External collaborators are
parameters: the JWT codec is a `decode` function, the argon2id hasher a
`hash_fn` function, and the Mongo text index a predicate on title and body.
-/

namespace NotesApp

/-- ObjectIds are opaque comparable tokens; model them as naturals. -/
abbrev Oid := Nat

/-- Timestamps, opaque except for addition of a validity period. -/
abbrev Datetime := Nat

/-- Error kinds, one per exception class in app/exceptions.py. -/
inductive AppError where
  | documentNotExists
  | forbiddenAccess
  | cannotShareNoteToYourself
  | alreadyShared
  | unauthorizedAccess
  | incorrectUsernameOrPassword
  | userAlreadyExists
deriving DecidableEq, Repr

/-- A user document (CreateUserDocumentSchema).  `password` is an `Option`
because helpers.fetch_user projects the field out (`none` = field absent). -/
structure UserDoc where
  id : Oid
  username : String
  password : Option String
  firstName : String
  lastName : String
  notes : List Oid
  sharedNotes : List Oid
  isActive : Bool
  createdAt : Datetime
  lastModifiedAt : Datetime
deriving DecidableEq, Repr

/-- A note document (CreateNoteDocumentSchema). -/
structure NoteDoc where
  id : Oid
  author : Oid
  title : String
  body : String
  isActive : Bool
  createdAt : Datetime
  lastModifiedAt : Datetime
deriving DecidableEq, Repr

/-- The two Mongo collections used by the service. -/
structure DB where
  notes : List NoteDoc
  users : List UserDoc
deriving DecidableEq, Repr

/-- Mongo update_one: apply `f` to the first element satisfying `p`. -/
def updateFirst (p : α → Bool) (f : α → α) : List α → List α
  | [] => []
  | x :: xs => if p x then f x :: xs else x :: updateFirst p f xs

/-- Notes.fetch_note: find_one on `_id` and `isActive`, raising
DocumentNotExistsException when absent. -/
def Notes.fetch_note (db : DB) (note_id : Oid) : Except AppError NoteDoc :=
  match db.notes.find? (fun n => n.id == note_id && n.isActive) with
  | none => .error .documentNotExists
  | some note => .ok note

/-- Notes.has_read_access: raises ForbiddenAccessException when the user is
not the author and the note is not in the user shared list. -/
def Notes.has_read_access (user : UserDoc) (note : NoteDoc) : Except AppError Unit :=
  if user.id != note.author && !(user.sharedNotes.contains note.id) then
    .error .forbiddenAccess
  else
    .ok ()

/-- Notes.has_write_access: raises ForbiddenAccessException when the user is
not the author. -/
def Notes.has_write_access (user : UserDoc) (note : NoteDoc) : Except AppError Unit :=
  if user.id != note.author then
    .error .forbiddenAccess
  else
    .ok ()

/-- CreateNote.process: build the note document via CreateNoteDocumentSchema
(author := the requesting user, isActive defaults to true, both timestamps
stamped with the current time), insert it, and push the new note id onto the
author user document inside one transaction.  `newId` is the ObjectId the
store assigns to the inserted document. -/
def CreateNote.process (db : DB) (user : UserDoc) (title body : String)
    (newId : Oid) (now : Datetime) : Oid × DB :=
  let note_data : NoteDoc :=
    { id := newId, author := user.id, title := title, body := body,
      isActive := true, createdAt := now, lastModifiedAt := now }
  (newId,
   { notes := db.notes ++ [note_data],
     users := updateFirst (fun u => u.id == user.id)
       (fun u => { u with notes := u.notes ++ [newId], lastModifiedAt := now })
       db.users })

/-- GetNotes.process: with a note_id, fetch that note and check read access;
without one, find all active notes whose id is in the user owned or shared
lists. -/
def GetNotes.process (db : DB) (user : UserDoc) (note_id : Option Oid) :
    Except AppError (List NoteDoc) :=
  match note_id with
  | some nid => do
      let note ← Notes.fetch_note db nid
      Notes.has_read_access user note
      .ok [note]
  | none =>
      .ok (db.notes.filter
        (fun n => (user.notes.contains n.id || user.sharedNotes.contains n.id) && n.isActive))

/-- DeleteNote.process: fetch the note, check write access, then soft delete
by flipping isActive on the matching active document and stamping the
modified time. -/
def DeleteNote.process (db : DB) (user : UserDoc) (note_id : Oid)
    (now : Datetime) : Except AppError DB := do
  let note ← Notes.fetch_note db note_id
  Notes.has_write_access user note
  .ok { db with
    notes := updateFirst (fun n => n.id == note.id && n.isActive)
      (fun n => { n with isActive := false, lastModifiedAt := now }) db.notes }

/-- Transaction semantics of DeleteNote: a raised exception aborts the
transaction, leaving the database unchanged. -/
def runDelete (db : DB) (user : UserDoc) (note_id : Oid) (now : Datetime) : DB :=
  match DeleteNote.process db user note_id now with
  | .ok db' => db'
  | .error _ => db

/-- helpers.fetch_user: find_one on active user by username, with the
password field projected out of the result. -/
def fetch_user (db : DB) (username : String) : Option UserDoc :=
  (db.users.find? (fun u => u.isActive && u.username == username)).map
    (fun u => { u with password := none })

/-- ShareNote.check_if_note_can_be_shared: self-share and duplicate-share
guards. -/
def ShareNote.check_if_note_can_be_shared (note : NoteDoc) (user_to_share : UserDoc) :
    Except AppError Unit :=
  if user_to_share.id == note.author then
    .error .cannotShareNoteToYourself
  else if user_to_share.sharedNotes.contains note.id then
    .error .alreadyShared
  else
    .ok ()

/-- ShareNote.process: fetch the note, check write access, resolve the
recipient by username (DocumentNotExists when unresolved), run the share
guards, then push the note id onto the recipient sharedNotes list and stamp
the recipient modified time. -/
def ShareNote.process (db : DB) (user : UserDoc) (note_id : Oid)
    (share_with : String) (now : Datetime) : Except AppError DB := do
  let note ← Notes.fetch_note db note_id
  Notes.has_write_access user note
  match fetch_user db share_with with
  | none => .error .documentNotExists
  | some user_to_share => do
      ShareNote.check_if_note_can_be_shared note user_to_share
      .ok { db with
        users := updateFirst (fun u => u.id == user_to_share.id && u.isActive)
          (fun u =>
            { u with sharedNotes := u.sharedNotes ++ [note.id], lastModifiedAt := now })
          db.users }

/-- Transaction semantics of ShareNote: a raised exception aborts the
transaction, leaving the database unchanged. -/
def runShare (db : DB) (user : UserDoc) (note_id : Oid) (share_with : String)
    (now : Datetime) : DB :=
  match ShareNote.process db user note_id share_with now with
  | .ok db' => db'
  | .error _ => db

/-- SearchNotes.process: find all notes whose author is the requesting user
and which match the text query.  The Mongo text index over title and body is
external; it is modelled by the predicate `text_match` on those two fields.
Note: the query filters on author only, with no isActive clause. -/
def SearchNotes.process (db : DB) (user : UserDoc)
    (text_match : String → String → Bool) : List NoteDoc :=
  db.notes.filter (fun n => n.author == user.id && text_match n.title n.body)

/-- ACCESS_TOKEN_VALIDITY from app/constants.py (days). -/
def ACCESS_TOKEN_VALIDITY : Nat := 1

/-- Seconds in a day, for translating timedelta(days=n) to Nat timestamps. -/
def SECONDS_PER_DAY : Nat := 86400

/-- The claim set signed into a JWT by LoginUser.process. -/
structure Token where
  username : String
  password : String
  iat : Datetime
  exp : Datetime
deriving DecidableEq, Repr

/-- User.fetch_user: find_one on active user by username, with no
projection (the password field stays in the result). -/
def User.fetch_user (db : DB) (username : String) : Option UserDoc :=
  db.users.find? (fun u => u.isActive && u.username == username)

/-- LoginUser.process: fetch the active user by username, recompute the
password hash and compare with the stored one (same
IncorrectUsernameOrPassword error for both failures), then issue a token
embedding username, password hash, issued-at and a 1-day expiry.  The
argon2id hasher is external; it is the deterministic function `hash_fn`. -/
def LoginUser.process (db : DB) (username password : String)
    (hash_fn : String → String) (now : Datetime) : Except AppError Token :=
  match User.fetch_user db username with
  | none => .error .incorrectUsernameOrPassword
  | some user =>
      let hashed_password := hash_fn password
      if some hashed_password ≠ user.password then
        .error .incorrectUsernameOrPassword
      else
        .ok { username := user.username, password := hashed_password,
              iat := now, exp := now + ACCESS_TOKEN_VALIDITY * SECONDS_PER_DAY }

/-- helpers.authenticate_user: reject a missing header or one without the
Bearer scheme, decode the token (the JWT codec is external: `decode` models
jwt.decode with the server key, returning none on any signature or expiry
failure), resolve the embedded username via fetch_user, and attach the
resolved user as the request identity.  Every failure is the uniform
UnauthorizedAccess.  The scheme-prefix test and the prefix strip are stated
on the character list of the header so that they compute. -/
def authenticate_user (decode : String → Option Token) (db : DB)
    (header : Option String) : Except AppError UserDoc :=
  match header with
  | none => .error .unauthorizedAccess
  | some token =>
      if token.data.take 7 ≠ "Bearer ".data then .error .unauthorizedAccess
      else
        match decode (String.mk (token.data.drop 7)) with
        | none => .error .unauthorizedAccess
        | some decoded_token =>
            match fetch_user db decoded_token.username with
            | none => .error .unauthorizedAccess
            | some user => .ok user

theorem length_updateFirst (p : α → Bool) (f : α → α) (l : List α) :
    (updateFirst p f l).length = l.length := by
  induction l with
  | nil => rfl
  | cons x xs ih =>
      simp only [updateFirst]
      split <;> simp [ih]

theorem mem_updateFirst (p : α → Bool) (f : α → α) {l : List α} {y : α}
    (hy : y ∈ updateFirst p f l) : ∃ x ∈ l, y = x ∨ y = f x := by
  induction l with
  | nil => simp [updateFirst] at hy
  | cons x xs ih =>
      simp only [updateFirst] at hy
      split at hy
      · rcases List.mem_cons.mp hy with h | h
        · exact ⟨x, List.mem_cons_self .., Or.inr h⟩
        · exact ⟨y, List.mem_cons_of_mem _ h, Or.inl rfl⟩
      · rcases List.mem_cons.mp hy with h | h
        · exact ⟨x, List.mem_cons_self .., Or.inl h⟩
        · obtain ⟨z, hz, hyz⟩ := ih h
          exact ⟨z, List.mem_cons_of_mem _ hz, hyz⟩

theorem mem_updateFirst_of_mem (p : α → Bool) (f : α → α) {l : List α} {x : α}
    (hx : x ∈ l) : x ∈ updateFirst p f l ∨ f x ∈ updateFirst p f l := by
  induction l with
  | nil => simp at hx
  | cons y ys ih =>
      simp only [updateFirst]
      rcases List.mem_cons.mp hx with h | h
      · subst h
        split
        · exact Or.inr (List.mem_cons_self ..)
        · exact Or.inl (List.mem_cons_self ..)
      · split
        · exact Or.inl (List.mem_cons_of_mem _ h)
        · rcases ih h with h' | h'
          · exact Or.inl (List.mem_cons_of_mem _ h')
          · exact Or.inr (List.mem_cons_of_mem _ h')

theorem updateFirst_eq_of_forall_not (p : α → Bool) (f : α → α) {l : List α}
    (h : ∀ x ∈ l, ¬ p x) : updateFirst p f l = l := by
  induction l with
  | nil => rfl
  | cons x xs ih =>
      simp only [updateFirst]
      rw [if_neg (by simpa using h x (List.mem_cons_self ..))]
      rw [ih (fun y hy => h y (List.mem_cons_of_mem _ hy))]

theorem updateFirst_decomp (p : α → Bool) (f : α → α) {l : List α} {x : α}
    (hx : x ∈ l) (hpx : p x) :
    ∃ l₁ a l₂, l = l₁ ++ a :: l₂ ∧ (∀ y ∈ l₁, ¬ p y) ∧ p a ∧
      updateFirst p f l = l₁ ++ f a :: l₂ := by
  induction l with
  | nil => simp at hx
  | cons y ys ih =>
      by_cases hpy : p y
      · refine ⟨[], y, ys, by simp, by simp, hpy, ?_⟩
        simp [updateFirst, hpy]
      · have hxys : x ∈ ys := by
          rcases List.mem_cons.mp hx with h | h
          · exact absurd (h ▸ hpx) hpy
          · exact h
        obtain ⟨l₁, a, l₂, hdec, hfst, hpa, hupd⟩ := ih hxys
        refine ⟨y :: l₁, a, l₂, by simp [hdec], ?_, hpa, ?_⟩
        · intro z hz
          rcases List.mem_cons.mp hz with h | h
          · exact h ▸ hpy
          · exact hfst z h
        · simp [updateFirst, hpy, hupd]

/-- C1: the read-access check succeeds exactly when the user id equals the
note author or the note id is a member of the user sharedNotes list, and
fails with ForbiddenAccess otherwise; the write-access check succeeds
exactly when the user id equals the note author, and fails with
ForbiddenAccess otherwise. -/
theorem c1_access_checks (user : UserDoc) (note : NoteDoc) :
    (Notes.has_read_access user note =
      if user.id = note.author ∨ note.id ∈ user.sharedNotes then .ok ()
      else .error .forbiddenAccess) ∧
    (Notes.has_write_access user note =
      if user.id = note.author then .ok () else .error .forbiddenAccess) := by
  constructor
  · by_cases ha : user.id = note.author <;> by_cases hm : note.id ∈ user.sharedNotes <;>
      simp [Notes.has_read_access, ha, hm]
  · by_cases ha : user.id = note.author <;> simp [Notes.has_write_access, ha]

/-- C4: if Create(A, T, B) succeeds returning note id N, then FetchOne(N)
succeeds and yields a note with author = A, title = T, body = B and the
active flag set.  `hfresh` is the store guarantee that the assigned ObjectId
is fresh (insert_one rejects a duplicate _id). -/
theorem c4_create_fetch_roundtrip (db : DB) (user : UserDoc) (title body : String)
    (newId : Oid) (now : Datetime)
    (hfresh : ∀ n ∈ db.notes, n.id ≠ newId) :
    (CreateNote.process db user title body newId now).1 = newId ∧
    Notes.fetch_note (CreateNote.process db user title body newId now).2 newId =
      .ok { id := newId, author := user.id, title := title, body := body,
            isActive := true, createdAt := now, lastModifiedAt := now } := by
  refine ⟨rfl, ?_⟩
  have hnone : db.notes.find? (fun n => n.id == newId && n.isActive) = none := by
    rw [List.find?_eq_none]
    intro n hn
    simp [hfresh n hn]
  unfold Notes.fetch_note CreateNote.process
  rw [List.find?_append, hnone]
  simp

theorem c4_witness :
    (∀ n ∈ (DB.mk [] []).notes, n.id ≠ 5) ∧
    (CreateNote.process (DB.mk [] []) (UserDoc.mk 1 "a@b.com" none "A" "B" [] [] true 0 0)
        "T" "B" 5 10).1 = 5 ∧
    Notes.fetch_note
      (CreateNote.process (DB.mk [] []) (UserDoc.mk 1 "a@b.com" none "A" "B" [] [] true 0 0)
        "T" "B" 5 10).2 5 =
      .ok { id := 5, author := 1, title := "T", body := "B",
            isActive := true, createdAt := 10, lastModifiedAt := 10 } := by
  refine ⟨by simp, ?_, ?_⟩
  · exact (c4_create_fetch_roundtrip (DB.mk [] [])
      (UserDoc.mk 1 "a@b.com" none "A" "B" [] [] true 0 0) "T" "B" 5 10 (by simp)).1
  · exact (c4_create_fetch_roundtrip (DB.mk [] [])
      (UserDoc.mk 1 "a@b.com" none "A" "B" [] [] true 0 0) "T" "B" 5 10 (by simp)).2

/-- The no-orphan invariant: every note document has its id recorded in the
owned-note list of a user document whose id is the note author. -/
def no_orphan (db : DB) : Prop :=
  ∀ note ∈ db.notes, ∃ u ∈ db.users, u.id = note.author ∧ note.id ∈ u.notes

/-- C5: Create inserts the note document and appends the new note id to the
author owned-note list as one unit: in the state Create produces, the note
document is present, its id is in the author owned-note list, and the
no-orphan invariant is preserved.  `hu` holds because the requesting user is
an authenticated user resolved from the users collection. -/
theorem c5_create_no_orphan (db : DB) (user : UserDoc) (title body : String)
    (newId : Oid) (now : Datetime)
    (hinv : no_orphan db) (hu : ∃ u ∈ db.users, u.id = user.id) :
    (∃ n ∈ (CreateNote.process db user title body newId now).2.notes,
       n.id = newId ∧ n.author = user.id) ∧
    (∃ u ∈ (CreateNote.process db user title body newId now).2.users,
       u.id = user.id ∧ newId ∈ u.notes) ∧
    no_orphan (CreateNote.process db user title body newId now).2 := by
  obtain ⟨u0, hu0, hu0id⟩ := hu
  obtain ⟨l₁, a, l₂, hdec, -, hpa, hupd⟩ :=
    updateFirst_decomp (fun u => u.id == user.id)
      (fun u => { u with notes := u.notes ++ [newId], lastModifiedAt := now })
      hu0 (by simp [hu0id])
  have haid : a.id = user.id := by simpa using hpa
  have hauth : ∃ u ∈ (CreateNote.process db user title body newId now).2.users,
      u.id = user.id ∧ newId ∈ u.notes := by
    refine ⟨{ a with notes := a.notes ++ [newId], lastModifiedAt := now }, ?_, by simpa, by simp⟩
    show _ ∈ updateFirst _ _ db.users
    rw [hupd]
    exact List.mem_append_right _ (List.mem_cons_self ..)
  refine ⟨⟨{ id := newId, author := user.id, title := title, body := body,
             isActive := true, createdAt := now, lastModifiedAt := now },
           List.mem_append_right _ (List.mem_cons_self ..), rfl, rfl⟩, hauth, ?_⟩
  intro note hnote
  rcases List.mem_append.mp hnote with hold | hnew
  · obtain ⟨u, hu', huid, hmem⟩ := hinv note hold
    rcases mem_updateFirst_of_mem (fun u => u.id == user.id)
        (fun u => { u with notes := u.notes ++ [newId], lastModifiedAt := now }) hu' with
      h | h
    · exact ⟨u, h, huid, hmem⟩
    · exact ⟨_, h, huid, List.mem_append_left _ hmem⟩
  · obtain ⟨u, hu', huid, hmem⟩ := hauth
    rw [List.mem_singleton.mp hnew]
    exact ⟨u, hu', huid, hmem⟩

theorem c5_witness :
    no_orphan (DB.mk [] [UserDoc.mk 1 "a@b.com" none "A" "B" [] [] true 0 0]) ∧
    (∃ u ∈ (UserDoc.mk 1 "a@b.com" none "A" "B" [] [] true 0 0) ::
        ([] : List UserDoc), u.id = 1) ∧
    no_orphan (CreateNote.process
      (DB.mk [] [UserDoc.mk 1 "a@b.com" none "A" "B" [] [] true 0 0])
      (UserDoc.mk 1 "a@b.com" none "A" "B" [] [] true 0 0) "T" "B" 5 10).2 := by
  refine ⟨?_, ?_, ?_⟩
  · intro note hnote
    simp [DB.mk] at hnote
  · exact ⟨UserDoc.mk 1 "a@b.com" none "A" "B" [] [] true 0 0, by simp, rfl⟩
  · exact (c5_create_no_orphan
      (DB.mk [] [UserDoc.mk 1 "a@b.com" none "A" "B" [] [] true 0 0])
      (UserDoc.mk 1 "a@b.com" none "A" "B" [] [] true 0 0) "T" "B" 5 10
      (by intro note hnote; simp [DB.mk] at hnote)
      ⟨UserDoc.mk 1 "a@b.com" none "A" "B" [] [] true 0 0, by simp, rfl⟩).2.2

/-- C9: login fails with the single IncorrectUsernameOrPassword error both
when no active user with the username exists and when the recomputed hash
differs from the stored one (indistinguishable to the caller); on success it
issues a token embedding the username, the password hash, the issued-at time
and a 1-day expiry. -/
theorem c9_login_errors_and_token (db : DB) (username password : String)
    (hash_fn : String → String) (now : Datetime) :
    (User.fetch_user db username = none →
      LoginUser.process db username password hash_fn now =
        .error .incorrectUsernameOrPassword) ∧
    (∀ u, User.fetch_user db username = some u →
      some (hash_fn password) ≠ u.password →
      LoginUser.process db username password hash_fn now =
        .error .incorrectUsernameOrPassword) ∧
    (∀ u, User.fetch_user db username = some u →
      some (hash_fn password) = u.password →
      LoginUser.process db username password hash_fn now =
        .ok { username := username, password := hash_fn password,
              iat := now, exp := now + 1 * SECONDS_PER_DAY }) := by
  refine ⟨?_, ?_, ?_⟩
  · intro h
    simp [LoginUser.process, h]
  · intro u hu hne
    simp [LoginUser.process, hu, hne]
  · intro u hu heq
    have huser : u.username = username := by
      have := List.find?_some hu
      simp at this
      exact this.2
    simp [LoginUser.process, hu, ← heq, huser, ACCESS_TOKEN_VALIDITY]

theorem c9_witness :
    (User.fetch_user (DB.mk [] []) "a@b.com" = none ∧
      LoginUser.process (DB.mk [] []) "a@b.com" "pw" (fun s => s) 0 =
        .error .incorrectUsernameOrPassword) ∧
    (User.fetch_user (DB.mk [] [UserDoc.mk 1 "a@b.com" (some "pw") "A" "B" [] [] true 0 0])
        "a@b.com" = some (UserDoc.mk 1 "a@b.com" (some "pw") "A" "B" [] [] true 0 0) ∧
      some "bad" ≠ (some "pw" : Option String) ∧
      LoginUser.process (DB.mk [] [UserDoc.mk 1 "a@b.com" (some "pw") "A" "B" [] [] true 0 0])
        "a@b.com" "bad" (fun s => s) 0 = .error .incorrectUsernameOrPassword) ∧
    (LoginUser.process (DB.mk [] [UserDoc.mk 1 "a@b.com" (some "pw") "A" "B" [] [] true 0 0])
        "a@b.com" "pw" (fun s => s) 0 =
      .ok { username := "a@b.com", password := "pw", iat := 0, exp := 0 + 1 * SECONDS_PER_DAY }) := by
  refine ⟨⟨by rfl, ?_⟩, ⟨by rfl, by decide, ?_⟩, ?_⟩
  · exact (c9_login_errors_and_token (DB.mk [] []) "a@b.com" "pw" (fun s => s) 0).1 (by rfl)
  · exact (c9_login_errors_and_token
      (DB.mk [] [UserDoc.mk 1 "a@b.com" (some "pw") "A" "B" [] [] true 0 0])
      "a@b.com" "bad" (fun s => s) 0).2.1
      (UserDoc.mk 1 "a@b.com" (some "pw") "A" "B" [] [] true 0 0) (by rfl) (by simp)
  · exact (c9_login_errors_and_token
      (DB.mk [] [UserDoc.mk 1 "a@b.com" (some "pw") "A" "B" [] [] true 0 0])
      "a@b.com" "pw" (fun s => s) 0).2.2
      (UserDoc.mk 1 "a@b.com" (some "pw") "A" "B" [] [] true 0 0) (by rfl) (by rfl)

/-- C10: the user snapshot resolved during token authentication and the
recipient record resolved during Share both come from helpers.fetch_user,
whose query projects the password field out, so neither ever carries a
stored password hash. -/
theorem c10_password_never_leaked :
    (∀ db username u, fetch_user db username = some u → u.password = none) ∧
    (∀ decode db header u, authenticate_user decode db header = .ok u →
      u.password = none) := by
  have hfetch : ∀ db username u, fetch_user db username = some u → u.password = none := by
    intro db username u hu
    unfold fetch_user at hu
    cases hfind : db.users.find? (fun u => u.isActive && u.username == username) with
    | none => rw [hfind] at hu; simp at hu
    | some v =>
        rw [hfind] at hu
        injection hu with h
        rw [← h]
  refine ⟨hfetch, ?_⟩
  intro decode db header u hu
  unfold authenticate_user at hu
  cases header with
  | none => simp at hu
  | some token =>
      simp only at hu
      split at hu
      · simp at hu
      · split at hu
        · simp at hu
        · rename_i decoded_token hdec
          cases hfind : fetch_user db decoded_token.username with
          | none => rw [hfind] at hu; simp at hu
          | some v =>
              rw [hfind] at hu
              simp only [Except.ok.injEq] at hu
              exact hu ▸ hfetch db decoded_token.username v hfind

theorem c10_witness :
    (fetch_user (DB.mk [] [UserDoc.mk 1 "a@b.com" (some "pw") "A" "B" [] [] true 0 0])
        "a@b.com" =
      some (UserDoc.mk 1 "a@b.com" none "A" "B" [] [] true 0 0) ∧
      (UserDoc.mk 1 "a@b.com" none "A" "B" [] [] true 0 0).password = none) ∧
    (authenticate_user
        (fun s => if s = "tok" then some (Token.mk "a@b.com" "pw" 0 86400) else none)
        (DB.mk [] [UserDoc.mk 1 "a@b.com" (some "pw") "A" "B" [] [] true 0 0])
        (some "Bearer tok") =
      .ok (UserDoc.mk 1 "a@b.com" none "A" "B" [] [] true 0 0) ∧
      (UserDoc.mk 1 "a@b.com" none "A" "B" [] [] true 0 0).password = none) := by
  refine ⟨⟨by rfl, ?_⟩, ⟨by rfl, ?_⟩⟩
  · exact c10_password_never_leaked.1
      (DB.mk [] [UserDoc.mk 1 "a@b.com" (some "pw") "A" "B" [] [] true 0 0]) "a@b.com"
      (UserDoc.mk 1 "a@b.com" none "A" "B" [] [] true 0 0) (by rfl)
  · exact c10_password_never_leaked.2
      (fun s => if s = "tok" then some (Token.mk "a@b.com" "pw" 0 86400) else none)
      (DB.mk [] [UserDoc.mk 1 "a@b.com" (some "pw") "A" "B" [] [] true 0 0])
      (some "Bearer tok")
      (UserDoc.mk 1 "a@b.com" none "A" "B" [] [] true 0 0) (by rfl)

deriving instance DecidableEq for Except

/-- A deterministic stand-in for the keyed argon2id hasher in the C2
scenario (the real hasher is external; only determinism and inequality of
distinct digests matter here). -/
def c2_hash (s : String) : String := String.append "h" s

/-- The user in the C2 scenario, before the password change. -/
def c2_user : UserDoc :=
  { id := 1, username := "a@b.com", password := some (c2_hash "pw1"),
    firstName := "A", lastName := "B", notes := [], sharedNotes := [],
    isActive := true, createdAt := 0, lastModifiedAt := 0 }

/-- The token LoginUser issues to that user at time 0. -/
def c2_token : Token :=
  { username := "a@b.com", password := c2_hash "pw1", iat := 0,
    exp := 0 + 1 * SECONDS_PER_DAY }

/-- The JWT codec in the C2 scenario: the string tok is the validly signed,
unexpired encoding of c2_token; everything else fails to decode.  jwt.decode
checks the signature and the expiry only, so a change of the stored password
does not affect what it returns. -/
def c2_decode (s : String) : Option Token :=
  if s = "tok" then some c2_token else none

/-- The database after the stored password hash has been changed. -/
def c2_db_after : DB :=
  { notes := [], users := [{ c2_user with password := some (c2_hash "pw2") }] }

/-- C2: the code does not revoke tokens on a password change.  The token
issued at login embeds the old hash; after the stored hash changes to a
different value, a request carrying that token still verifies successfully,
because authenticate_user resolves the user by username only (with the
password projected out) and never compares the embedded hash against the
stored one.  The claim that verification then fails with UnauthorizedAccess
is false on this input. -/
theorem c2_token_survives_password_change :
    LoginUser.process { notes := [], users := [c2_user] } "a@b.com" "pw1" c2_hash 0 =
      .ok c2_token ∧
    ({ c2_user with password := some (c2_hash "pw2") } : UserDoc).password ≠
      some c2_token.password ∧
    authenticate_user c2_decode c2_db_after (some "Bearer tok") =
      .ok { c2_user with password := none } := by
  refine ⟨by decide, by decide, by decide⟩

/-- The soft-deleted note in the C3 scenario. -/
def c3_note : NoteDoc :=
  { id := 1, author := 7, title := "milk", body := "eggs", isActive := false,
    createdAt := 0, lastModifiedAt := 0 }

/-- The author in the C3 scenario. -/
def c3_user : UserDoc :=
  { id := 7, username := "a@b.com", password := none, firstName := "A",
    lastName := "B", notes := [1], sharedNotes := [], isActive := true,
    createdAt := 0, lastModifiedAt := 0 }

/-- The text index match for the C3 scenario: the query hits the word milk
in the title or the body. -/
def c3_match (title body : String) : Bool := title == "milk" || body == "milk"

/-- C3: SearchNotes.process filters on author and the text index only, with
no isActive clause, so a soft-deleted note whose text matches the query is
returned; the claim that every returned search result has the active flag
set fails on this input. -/
theorem c3_search_returns_inactive_note :
    SearchNotes.process { notes := [c3_note], users := [c3_user] } c3_user c3_match =
      [c3_note] ∧
    c3_note.isActive = false := by
  refine ⟨by decide, by decide⟩

theorem nodup_map_middle {β : Type} (g : α → β) {l₁ l₂ : List α} {a : α}
    (h : ((l₁ ++ a :: l₂).map g).Nodup) :
    (∀ y ∈ l₁, g y ≠ g a) ∧ (∀ y ∈ l₂, g y ≠ g a) := by
  rw [List.map_append, List.map_cons, List.nodup_append] at h
  obtain ⟨-, h2, hdisj⟩ := h
  constructor
  · intro y hy heq
    exact hdisj (List.mem_map_of_mem _ hy) (heq ▸ List.mem_cons_self ..)
  · intro y hy heq
    exact (List.nodup_cons.mp h2).1 (heq ▸ List.mem_map_of_mem _ hy)

/-- C6: after a successful SoftDelete(A, N), FetchOne(N) fails with
DocumentNotExists, N is excluded from the FetchAccessible result of every
user, and the note document is not physically removed: the collection keeps
its size and still holds a document with id N whose active flag is false.
`hids` is the store guarantee that ObjectIds are unique in the collection. -/
theorem c6_soft_delete_terminal (db : DB) (user : UserDoc) (note_id : Oid)
    (now : Datetime) (db' : DB)
    (hids : (db.notes.map NoteDoc.id).Nodup)
    (hdel : DeleteNote.process db user note_id now = .ok db') :
    Notes.fetch_note db' note_id = .error .documentNotExists ∧
    (∀ v notes, GetNotes.process db' v none = .ok notes →
      ∀ n ∈ notes, n.id ≠ note_id) ∧
    db'.notes.length = db.notes.length ∧
    (∃ n ∈ db'.notes, n.id = note_id ∧ n.isActive = false) := by
  unfold DeleteNote.process at hdel
  cases hfn : Notes.fetch_note db note_id with
  | error e =>
    rw [hfn] at hdel
    simp only [Bind.bind, Except.bind] at hdel
    exact Except.noConfusion hdel
  | ok note =>
    rw [hfn] at hdel
    by_cases hw : user.id = note.author
    · have hwa : Notes.has_write_access user note = Except.ok () := by
        simp [Notes.has_write_access, hw]
      simp only [Bind.bind, Except.bind, hwa] at hdel
      have hdb' : db' = { db with
          notes := updateFirst (fun n => n.id == note.id && n.isActive)
            (fun n => { n with isActive := false, lastModifiedAt := now }) db.notes } := by
        injection hdel with h
        exact h.symm
      have hmem : note ∈ db.notes := by
        unfold Notes.fetch_note at hfn
        cases hfind : db.notes.find? (fun n => n.id == note_id && n.isActive) with
        | none => rw [hfind] at hfn; simp at hfn
        | some m =>
            rw [hfind] at hfn
            injection hfn with h
            exact h ▸ List.mem_of_find?_eq_some hfind
      have hprop : note.id = note_id ∧ note.isActive = true := by
        unfold Notes.fetch_note at hfn
        cases hfind : db.notes.find? (fun n => n.id == note_id && n.isActive) with
        | none => rw [hfind] at hfn; simp at hfn
        | some m =>
            rw [hfind] at hfn
            injection hfn with h
            have := List.find?_some hfind
            simp at this
            exact ⟨h ▸ this.1, h ▸ this.2⟩
      obtain ⟨l₁, a, l₂, hdec, -, hpa, hupd⟩ :=
        updateFirst_decomp (fun n => n.id == note.id && n.isActive)
          (fun n => { n with isActive := false, lastModifiedAt := now })
          hmem (by simp [hprop.2])
      have ha : a.id = note.id ∧ a.isActive = true := by simpa using hpa
      have hnotes' : db'.notes = l₁ ++
          { a with isActive := false, lastModifiedAt := now } :: l₂ := by
        rw [hdb']
        exact hupd
      obtain ⟨hne₁, hne₂⟩ := nodup_map_middle NoteDoc.id (hdec ▸ hids)
      have hcentral : ∀ n ∈ db'.notes, n.isActive = true → n.id ≠ note_id := by
        intro n hn hact
        rw [hnotes'] at hn
        rcases List.mem_append.mp hn with h | h
        · exact fun he => hne₁ n h (he.trans (ha.1.trans hprop.1).symm)
        · rcases List.mem_cons.mp h with h' | h'
          · rw [h'] at hact; simp at hact
          · exact fun he => hne₂ n h' (he.trans (ha.1.trans hprop.1).symm)
      refine ⟨?_, ?_, ?_, ?_⟩
      · unfold Notes.fetch_note
        rw [List.find?_eq_none.mpr]
        intro n hn
        simp only [Bool.and_eq_true, beq_iff_eq, Bool.not_eq_true]
        intro hq
        exact absurd hq.1 (hcentral n hn hq.2)
      · intro v notes hget n hn
        unfold GetNotes.process at hget
        injection hget with h
        rw [← h] at hn
        have := List.mem_filter.mp hn
        have hact : n.isActive = true := by
          have hp := this.2
          simp only [Bool.and_eq_true] at hp
          exact hp.2
        exact hcentral n this.1 hact
      · rw [hnotes', hdec]
        simp
      · refine ⟨{ a with isActive := false, lastModifiedAt := now }, ?_, ?_, rfl⟩
        · rw [hnotes']
          exact List.mem_append_right _ (List.mem_cons_self ..)
        · rw [← hprop.1]
          exact ha.1
    · have hwa : Notes.has_write_access user note = Except.error .forbiddenAccess := by
        simp [Notes.has_write_access, hw]
      simp only [Bind.bind, Except.bind, hwa] at hdel
      exact Except.noConfusion hdel

theorem c6_witness :
    (((DB.mk [NoteDoc.mk 10 1 "t" "b" true 0 0]
        [UserDoc.mk 1 "a@b.com" none "A" "B" [10] [] true 0 0]).notes.map
          NoteDoc.id).Nodup ∧
     DeleteNote.process
        (DB.mk [NoteDoc.mk 10 1 "t" "b" true 0 0]
          [UserDoc.mk 1 "a@b.com" none "A" "B" [10] [] true 0 0])
        (UserDoc.mk 1 "a@b.com" none "A" "B" [10] [] true 0 0) 10 5 =
       .ok (DB.mk [NoteDoc.mk 10 1 "t" "b" false 0 5]
          [UserDoc.mk 1 "a@b.com" none "A" "B" [10] [] true 0 0])) ∧
    Notes.fetch_note
      (DB.mk [NoteDoc.mk 10 1 "t" "b" false 0 5]
        [UserDoc.mk 1 "a@b.com" none "A" "B" [10] [] true 0 0]) 10 =
      .error .documentNotExists := by
  refine ⟨⟨by decide, by decide⟩, ?_⟩
  exact (c6_soft_delete_terminal
    (DB.mk [NoteDoc.mk 10 1 "t" "b" true 0 0]
      [UserDoc.mk 1 "a@b.com" none "A" "B" [10] [] true 0 0])
    (UserDoc.mk 1 "a@b.com" none "A" "B" [10] [] true 0 0) 10 5
    (DB.mk [NoteDoc.mk 10 1 "t" "b" false 0 5]
      [UserDoc.mk 1 "a@b.com" none "A" "B" [10] [] true 0 0])
    (by decide) (by decide)).1

/-- C7: for an existing active note, Share by a non-author fails with
ForbiddenAccess; Share by the author to an unresolved username fails with
DocumentNotExists; Share whose recipient resolves to the author themselves
fails with CannotShareWithSelf; Share to a recipient other than the author
whose shared list already holds the note id fails with AlreadyShared; and a
failing Share leaves the database unchanged (the exception aborts the
transaction before the write). -/
theorem c7_share_guards (db : DB) (user : UserDoc) (note_id : Oid)
    (share_with : String) (now : Datetime) (note : NoteDoc)
    (hnote : Notes.fetch_note db note_id = .ok note) :
    (user.id ≠ note.author →
      ShareNote.process db user note_id share_with now = .error .forbiddenAccess) ∧
    (user.id = note.author → fetch_user db share_with = none →
      ShareNote.process db user note_id share_with now = .error .documentNotExists) ∧
    (∀ r, user.id = note.author → fetch_user db share_with = some r →
      r.id = note.author →
      ShareNote.process db user note_id share_with now =
        .error .cannotShareNoteToYourself) ∧
    (∀ r, user.id = note.author → fetch_user db share_with = some r →
      r.id ≠ note.author → note.id ∈ r.sharedNotes →
      ShareNote.process db user note_id share_with now = .error .alreadyShared) ∧
    (∀ e, ShareNote.process db user note_id share_with now = .error e →
      runShare db user note_id share_with now = db) := by
  refine ⟨?_, ?_, ?_, ?_, ?_⟩
  · intro hne
    have hwa : Notes.has_write_access user note = Except.error .forbiddenAccess := by
      simp [Notes.has_write_access, hne]
    unfold ShareNote.process
    rw [hnote]
    simp only [Bind.bind, Except.bind, hwa]
  · intro hw hfu
    have hwa : Notes.has_write_access user note = Except.ok () := by
      simp [Notes.has_write_access, hw]
    unfold ShareNote.process
    rw [hnote]
    simp only [Bind.bind, Except.bind, hwa, hfu]
  · intro r hw hfu hr
    have hwa : Notes.has_write_access user note = Except.ok () := by
      simp [Notes.has_write_access, hw]
    have hc : ShareNote.check_if_note_can_be_shared note r =
        Except.error .cannotShareNoteToYourself := by
      simp [ShareNote.check_if_note_can_be_shared, hr]
    unfold ShareNote.process
    rw [hnote]
    simp only [Bind.bind, Except.bind, hwa, hfu, hc]
  · intro r hw hfu hrne hmem
    have hwa : Notes.has_write_access user note = Except.ok () := by
      simp [Notes.has_write_access, hw]
    have hc : ShareNote.check_if_note_can_be_shared note r =
        Except.error .alreadyShared := by
      simp [ShareNote.check_if_note_can_be_shared, hrne, hmem]
    unfold ShareNote.process
    rw [hnote]
    simp only [Bind.bind, Except.bind, hwa, hfu, hc]
  · intro e he
    unfold runShare
    rw [he]

/-- The note in the C7 and C8 scenarios. -/
def c7_note : NoteDoc := NoteDoc.mk 10 1 "t" "b" true 0 0

/-- The author in the C7 and C8 scenarios. -/
def c7_author : UserDoc := UserDoc.mk 1 "a@b.com" (some "h1") "A" "B" [10] [] true 0 0

/-- A recipient who already holds the note in the shared list. -/
def c7_recipient : UserDoc := UserDoc.mk 2 "b@x.com" (some "h2") "C" "D" [] [10] true 0 0

/-- A third user who is not the author of the note. -/
def c7_other : UserDoc := UserDoc.mk 3 "c@y.com" (some "h3") "E" "F" [] [] true 0 0

/-- The database in the C7 scenario. -/
def c7_db : DB := DB.mk [c7_note] [c7_author, c7_recipient, c7_other]

theorem c7_witness :
    (Notes.fetch_note c7_db 10 = .ok c7_note) ∧
    ShareNote.process c7_db c7_other 10 "b@x.com" 0 = .error .forbiddenAccess ∧
    ShareNote.process c7_db c7_author 10 "z@z.com" 0 = .error .documentNotExists ∧
    ShareNote.process c7_db c7_author 10 "a@b.com" 0 =
      .error .cannotShareNoteToYourself ∧
    ShareNote.process c7_db c7_author 10 "b@x.com" 0 = .error .alreadyShared ∧
    runShare c7_db c7_author 10 "b@x.com" 0 = c7_db := by
  refine ⟨by decide, ?_, ?_, ?_, ?_, ?_⟩
  · exact (c7_share_guards c7_db c7_other 10 "b@x.com" 0 c7_note (by decide)).1
      (by decide)
  · exact (c7_share_guards c7_db c7_author 10 "z@z.com" 0 c7_note (by decide)).2.1
      (by decide) (by decide)
  · exact (c7_share_guards c7_db c7_author 10 "a@b.com" 0 c7_note (by decide)).2.2.1
      { c7_author with password := none } (by decide) (by decide) (by decide)
  · exact (c7_share_guards c7_db c7_author 10 "b@x.com" 0 c7_note (by decide)).2.2.2.1
      { c7_recipient with password := none } (by decide) (by decide) (by decide)
      (by decide)
  · exact (c7_share_guards c7_db c7_author 10 "b@x.com" 0 c7_note (by decide)).2.2.2.2
      .alreadyShared
      ((c7_share_guards c7_db c7_author 10 "b@x.com" 0 c7_note (by decide)).2.2.2.1
        { c7_recipient with password := none } (by decide) (by decide) (by decide)
        (by decide))

/-- C8: a successful Share changes only the recipient user document.  The
note collection is returned untouched, and the users collection is unchanged
except that the recipient document, whose id differs from the sharing
author, gets the note id appended to its shared list and its modified time
stamped.  `hids` is the store guarantee that ObjectIds are unique in the
users collection. -/
theorem c8_share_frame (db : DB) (user : UserDoc) (note_id : Oid)
    (share_with : String) (now : Datetime) (db' : DB)
    (hids : (db.users.map UserDoc.id).Nodup)
    (hok : ShareNote.process db user note_id share_with now = .ok db') :
    db'.notes = db.notes ∧
    (∃ l₁ r l₂, db.users = l₁ ++ r :: l₂ ∧
      r.isActive = true ∧ r.username = share_with ∧ r.id ≠ user.id ∧
      db'.users = l₁ ++
        { r with sharedNotes := r.sharedNotes ++ [note_id],
                 lastModifiedAt := now } :: l₂) := by
  unfold ShareNote.process at hok
  cases hfn : Notes.fetch_note db note_id with
  | error e =>
    rw [hfn] at hok
    simp only [Bind.bind, Except.bind] at hok
    exact Except.noConfusion hok
  | ok note =>
    rw [hfn] at hok
    by_cases hw : user.id = note.author
    · have hwa : Notes.has_write_access user note = Except.ok () := by
        simp [Notes.has_write_access, hw]
      simp only [Bind.bind, Except.bind, hwa] at hok
      cases hfu : fetch_user db share_with with
      | none =>
        simp only [hfu] at hok
        exact Except.noConfusion hok
      | some user_to_share =>
        simp only [hfu] at hok
        cases hc : ShareNote.check_if_note_can_be_shared note user_to_share with
        | error e =>
          simp only [hc] at hok
          exact Except.noConfusion hok
        | ok u =>
          simp only [hc, Bind.bind, Except.bind] at hok
          have hne : user_to_share.id ≠ note.author := by
            intro h
            simp [ShareNote.check_if_note_can_be_shared, h] at hc
          have hnid : note.id = note_id := by
            unfold Notes.fetch_note at hfn
            cases hfind : db.notes.find? (fun n => n.id == note_id && n.isActive) with
            | none => rw [hfind] at hfn; simp at hfn
            | some m =>
                rw [hfind] at hfn
                injection hfn with h
                have := List.find?_some hfind
                simp at this
                exact h ▸ this.1
          obtain ⟨u0, hfind, hu0⟩ : ∃ u0,
              db.users.find? (fun u => u.isActive && u.username == share_with) = some u0 ∧
              user_to_share = { u0 with password := none } := by
            unfold fetch_user at hfu
            cases hfind : db.users.find? (fun u => u.isActive && u.username == share_with) with
            | none => rw [hfind] at hfu; simp at hfu
            | some v =>
                rw [hfind] at hfu
                injection hfu with h
                exact ⟨v, rfl, h.symm⟩
          have hu0mem : u0 ∈ db.users := List.mem_of_find?_eq_some hfind
          have hu0prop : u0.isActive = true ∧ u0.username = share_with := by
            have := List.find?_some hfind
            simp at this
            exact this
          have hpid : user_to_share.id = u0.id := by rw [hu0]
          obtain ⟨l₁, a, l₂, hdec, -, hpa, hupd⟩ :=
            updateFirst_decomp (fun u => u.id == user_to_share.id && u.isActive)
              (fun u =>
                { u with sharedNotes := u.sharedNotes ++ [note.id], lastModifiedAt := now })
              hu0mem (by simp [hpid, hu0prop.1])
          have ha_id : a.id = u0.id := by
            have := hpa
            simp [hpid] at this
            exact this.1
          have hau0 : a = u0 := by
            have hmm := nodup_map_middle UserDoc.id (hdec ▸ hids)
            have hu0' : u0 ∈ l₁ ++ a :: l₂ := hdec ▸ hu0mem
            rcases List.mem_append.mp hu0' with h | h
            · exact absurd ha_id.symm (hmm.1 u0 h)
            · rcases List.mem_cons.mp h with h' | h'
              · exact h'.symm
              · exact absurd ha_id.symm (hmm.2 u0 h')
          have hdb' : db' = { db with
              users := updateFirst (fun u => u.id == user_to_share.id && u.isActive)
                (fun u =>
                  { u with sharedNotes := u.sharedNotes ++ [note.id], lastModifiedAt := now })
                db.users } := by
            injection hok with h
            exact h.symm
          refine ⟨by rw [hdb'], l₁, u0, l₂, hau0 ▸ hdec, hu0prop.1, hu0prop.2, ?_, ?_⟩
          · intro h
            exact hne (by rw [hpid, h, hw])
          · rw [hdb']
            show updateFirst _ _ db.users = _
            rw [hupd, hau0, hnid]
    · have hwa : Notes.has_write_access user note = Except.error .forbiddenAccess := by
        simp [Notes.has_write_access, hw]
      simp only [Bind.bind, Except.bind, hwa] at hok
      exact Except.noConfusion hok

theorem c8_witness :
    ShareNote.process c7_db c7_author 10 "c@y.com" 9 =
      .ok (DB.mk [c7_note] [c7_author, c7_recipient,
        UserDoc.mk 3 "c@y.com" (some "h3") "E" "F" [] [10] true 0 9]) ∧
    (DB.mk [c7_note] [c7_author, c7_recipient,
        UserDoc.mk 3 "c@y.com" (some "h3") "E" "F" [] [10] true 0 9]).notes =
      c7_db.notes := by
  refine ⟨by decide, ?_⟩
  exact (c8_share_frame c7_db c7_author 10 "c@y.com" 9
    (DB.mk [c7_note] [c7_author, c7_recipient,
      UserDoc.mk 3 "c@y.com" (some "h3") "E" "F" [] [10] true 0 9])
    (by decide) (by decide)).1

end NotesApp
